import Mathlib

/-!
Verification of the land-use classification workflow of `hydromt_uwbm`
(`hydromt_uwbm/workflows/landuse.py` and the mapping-table validation in
`hydromt_uwbm/uwbm.py`, `UWBM.setup_landuse`).

Modelling conventions (shallow embedding):

* Python floats are modelled as exact rationals (`ℚ`); `pandas.Series.round`
  (numpy round-half-to-even) is modelled by `roundHalfEven`.
* A GeoDataFrame is modelled as a list of records.  For the table builder
  (`landuse_table`) a geometry is only observed through its type
  (polygonal or not) and its area, so a record is `LuRec`
  (reclass, is-polygonal flag, area).
* Pandas float division by zero yields NaN (for 0/0) which the final
  `groupby(...).sum()` (skipna, min_count=0) turns into `0.0`.  In the ℚ
  model `0 / 0 = 0`, which agrees with that end-to-end behaviour; the only
  inputs where the model could diverge (a positive area with a zero rounded
  total, giving float `inf`) are excluded by the hypotheses of the theorems
  that talk about numeric values.
* `groupby("reclass", as_index=False)[...].sum()` sorts the group keys
  (pandas default `sort=True`); it is modelled by `groupTable`, which maps
  over the sorted deduplicated key list.
-/

/-- Round a rational to the nearest integer, ties to even — the rounding used
by `pandas`/`numpy` `.round(0)`. -/
def roundHalfEven (q : ℚ) : ℤ :=
  let f := Rat.floor q
  if q - f < 1/2 then f
  else if 1/2 < q - f then f + 1
  else if f % 2 = 0 then f else f + 1

/-- Model of `Series.round(0)` on a float value, in the exact-rational
model. -/
def round0 (q : ℚ) : ℚ := (roundHalfEven q : ℚ)

/-- Model of `Series.round(3)` on a float value, in the exact-rational
model. -/
def round3 (q : ℚ) : ℚ := (roundHalfEven (1000 * q) : ℚ) / 1000

/-- A record of the land-use map as observed by `landuse_table`: the
`reclass` attribute, whether the geometry type is Polygon/MultiPolygon, and
the geometry's area (`lu_map.geometry.area`). -/
structure LuRec where
  reclass : String
  isPolygonal : Bool
  area : ℚ
deriving DecidableEq, Repr

/-- The class renaming of `landuse_table` (lines 179–187):
`Series.replace({"open_paved": "op", "water": "ow", "unpaved": "up",
"paved_roof": "pr", "closed_paved": "cp"})`; all other values unchanged. -/
def renameClass (c : String) : String :=
  if c == "open_paved" then "op"
  else if c == "water" then "ow"
  else if c == "unpaved" then "up"
  else if c == "paved_roof" then "pr"
  else if c == "closed_paved" then "cp"
  else c

/-- Boolean string order used to model the sorted group keys of
`groupby(..., sort=True)`. -/
def strLe (a b : String) : Bool := a == b || decide (a < b)

/-- Insert into a `strLe`-sorted list. -/
def insStr (a : String) : List String → List String
  | [] => [a]
  | b :: l => if strLe a b then a :: b :: l else b :: insStr a l

/-- Insertion sort of the group keys (pandas `groupby` sorts keys). -/
def sortStr : List String → List String
  | [] => []
  | a :: l => insStr a (sortStr l)

/-- Model of `lu_table.groupby("reclass", as_index=False)[["area", "frac"]]
.sum().round(3)` (lines 190–192): one output row per distinct key, in sorted
key order, with the group sums of `area` and `frac`, both rounded to three
decimals. -/
def groupTable (rows : List (String × ℚ × ℚ)) : List (String × ℚ × ℚ) :=
  (sortStr ((rows.map (fun r => r.1)).dedup)).map (fun k =>
    (k, round3 (((rows.filter (fun r => r.1 == k)).map (fun r => r.2.1)).sum),
        round3 (((rows.filter (fun r => r.1 == k)).map (fun r => r.2.2)).sum)))

/-- The water rows of the working table: `lu_table[lu_table["reclass"] ==
"water"]` (line 158). -/
def waterRowsOf (lu : List (String × ℚ)) : List (String × ℚ) :=
  lu.filter (fun r => r.1 == "water")

/-- The condition of the water-floor branch (line 159):
`water.empty or water["area"].sum() < 0.01 * tot_area`. -/
def floorCond (lu : List (String × ℚ)) (tot : ℚ) : Bool :=
  (waterRowsOf lu).isEmpty ||
    decide (((waterRowsOf lu).map (fun r => r.2)).sum < (1/100) * tot)

/-- The area bump of the water-floor branch (line 164):
`lu_table.loc[lu_table["reclass"] == "water", "area"] += area_tot_new * 0.01`
applied to a single row, with `area_tot_new = tot_area / 0.99`. -/
def bumpWater (tot : ℚ) (r : String × ℚ) : String × ℚ :=
  if r.1 == "water" then (r.1, r.2 + tot / (99/100) * (1/100)) else r

/-- The class rows after the water-floor adjustment (lines 159–164): when the
branch fires, a zero-area water row is appended if water is absent, and each
water row's area is then increased by `area_tot_new * 0.01` where
`area_tot_new = tot_area / 0.99`; otherwise the rows are unchanged. -/
def adjustedRows (lu : List (String × ℚ)) (tot : ℚ) : List (String × ℚ) :=
  if floorCond lu tot then
    (if (waterRowsOf lu).isEmpty then lu ++ [("water", (0 : ℚ))] else lu).map
      (bumpWater tot)
  else lu

/-- The denominator used for the fractions: `area_tot_new = tot_area / 0.99`
in the water-floor branch (line 163), `tot_area` otherwise (line 167). -/
def effDenom (lu : List (String × ℚ)) (tot : ℚ) : ℚ :=
  if floorCond lu tot then tot / (99/100) else tot

/-- Body of `landuse_table` after areas are computed: water-floor adjustment,
fractions `round3(area / denom)` (lines 165/167), the appended
`{"reclass": "tot_area", "area": tot_area, "frac": 1}` row (lines 170–176),
the class renaming (lines 179–187), and the final group-by (lines 190–192). -/
def landuse_tableAux (lu : List (String × ℚ)) (tot : ℚ) : List (String × ℚ × ℚ) :=
  groupTable
    (((adjustedRows lu tot).map
          (fun r => (r.1, r.2, round3 (r.2 / effDenom lu tot))) ++
        [("tot_area", tot, (1 : ℚ))]).map
      (fun r => (renameClass r.1, r.2)))

/-- The `(reclass, area)` working rows of `landuse_table` (lines 150–154):
keep only polygonal records, take `reclass` and the geometry area. -/
def tableRows (m : List LuRec) : List (String × ℚ) :=
  (m.filter (fun r => r.isPolygonal)).map (fun r => (r.reclass, r.area))

/-- Model of `tot_area = float(lu_table["area"].sum().round(0))`
(line 155): the area total rounded to zero decimals. -/
def totRound (m : List LuRec) : ℚ :=
  round0 (((tableRows m).map (fun r => r.2)).sum)

/-- Model of `landuse_table` (landuse.py lines 136–194). -/
def landuse_tableModel (m : List LuRec) : List (String × ℚ × ℚ) :=
  landuse_tableAux (tableRows m) (totRound m)

/-- Modelled from the spec: the table builder as §4.6 of the spec describes
it, with "all areas and fractions rounded to 3 decimals at the point of
output (not before)" — i.e. the exact (unrounded) area total is used for the
water-floor adjustment and the fractions.  Used only to compare against the
source's `landuse_tableModel`, which pre-rounds the total to 0 decimals. -/
def landuse_tableNoPreround (m : List LuRec) : List (String × ℚ × ℚ) :=
  landuse_tableAux (tableRows m) (((tableRows m).map (fun r => r.2)).sum)

/-- The `frac` value of the (first) row of a table with the given reclass
code. -/
def lookupFrac (t : List (String × ℚ × ℚ)) (c : String) : Option ℚ :=
  (t.find? (fun r => r.1 == c)).map (fun r => r.2.2)

/-- The `area` value of the (first) row of a table with the given reclass
code. -/
def lookupArea (t : List (String × ℚ × ℚ)) (c : String) : Option ℚ :=
  (t.find? (fun r => r.1 == c)).map (fun r => r.2.1)

/-- Sum of the `frac` column over all rows other than the synthetic
`tot_area` row. -/
def sumNonTot (t : List (String × ℚ × ℚ)) : ℚ :=
  ((t.filter (fun r => !(r.1 == "tot_area"))).map (fun r => r.2.2)).sum

/-- The exact (un-rounded) value the non-total fractions of
`landuse_table` sum to: the adjusted class areas divided by the effective
denominator.  In the water-floor branch this is `0.99·T/R + w/100` (T the
exact total, R the rounded total, w the number of water rows) and `T/R`
otherwise. -/
def fracTarget (m : List LuRec) : ℚ :=
  (((adjustedRows (tableRows m) (totRound m)).map (fun r => r.2)).sum) /
    effDenom (tableRows m) (totRound m)

/-- Number of class rows of the working table after the water-floor
adjustment (the non-`tot_area` rows before the final group-by). -/
def classRowCount (m : List LuRec) : ℕ :=
  (adjustedRows (tableRows m) (totRound m)).length

/-!
Overlay model (`_combine_layers`, lines 222–241, and the composition loop of
`landuse_from_osm`, lines 124–126).

A polygon geometry is modelled by its set of points, a `Finset α` over an
arbitrary point type `α` (set semantics of the planar region it covers).
Under this semantics:

* `buffer(0)` (topology repair, lines 233–234) does not change the covered
  point set: it is the identity;
* `explode` (line 239) re-partitions a multi-part geometry into several
  records of the same class covering the same points: the point-to-class
  relation of the layer is unchanged, so it is the identity on the model;
* `gpd.overlay(ds_base, ds_add, how="difference")` (line 236) subtracts the
  union of `ds_add`'s geometries from each record of `ds_base`, dropping
  records whose geometry becomes empty;
* `pd.concat` (line 238) is list append;
* the CRS reconciliation (lines 228–229) is not modelled (all layers share
  one coordinate system in the model).

A layer (GeoDataFrame with a `reclass` column) is a list of
(reclass, geometry) records.
-/

/-- A class-tagged polygon layer: records of `reclass` and geometry
(modelled as the set of points the polygon covers). -/
abbrev Layer (α : Type) := List (String × Finset α)

/-- The union of all geometries of a layer (the footprint that
`ds_add` cuts out of `ds_base` in `gpd.overlay(..., how="difference")`). -/
def covU {α : Type} [DecidableEq α] (l : Layer α) : Finset α :=
  l.foldr (fun r acc => r.2 ∪ acc) ∅

/-- Model of `_combine_layers` (lines 222–241): if `ds_add` is empty return
`ds_base` unchanged; otherwise remove `ds_add`'s footprint from every base
record (difference overlay, empty remainders dropped) and append `ds_add`. -/
def combineLayers {α : Type} [DecidableEq α] (ds_base ds_add : Layer α) :
    Layer α :=
  if ds_add.isEmpty then ds_base
  else
    ((ds_base.map (fun r => (r.1, r.2 \ covU ds_add))).filter
        (fun r => decide (r.2 ≠ ∅))) ++
      ds_add

/-- The composition loop of `landuse_from_osm` (lines 124–126): start from
the unpaved base layer and fold `_combine_layers` over water, open_paved,
closed_paved, paved_roof in that order. -/
def luMapComposite {α : Type} [DecidableEq α]
    (lu wa opv cpv prv : Layer α) : Layer α :=
  List.foldl combineLayers lu [wa, opv, cpv, prv]

/-- The fixed priority stack of `landuse_from_osm` (lines 116–122): each
layer paired with the class its records are tagged with. -/
def layerStack {α : Type} (lu wa opv cpv prv : Layer α) :
    List (String × Layer α) :=
  [("unpaved", lu), ("water", wa), ("open_paved", opv),
   ("closed_paved", cpv), ("paved_roof", prv)]

/-- The layer covers the point and every record of the layer containing the
point is tagged `c`. -/
def classifiedAs {α : Type} (l : Layer α) (p : α) (c : String) : Prop :=
  (∃ r ∈ l, p ∈ r.2) ∧ ∀ r ∈ l, p ∈ r.2 → r.1 = c

/-!
Buffer model (`_linestring_buffer`, lines 197–219).

Here a geometry is a symbolic term, so that the buffering operation and its
end-cap style are observable.  The `reclass` attribute of a merged line
record comes from the left join with the mapping table (line 59): rows with
no match get a null (`NaN`) class, modelled as `none`.
-/

/-- End-cap style of a buffer operation.  `GeoSeries.buffer` defaults to
round caps when, as in the source (line 216), no `cap_style` is passed. -/
inductive CapStyle where
  | round
  | flat
  | square
deriving DecidableEq, Repr

/-- Symbolic geometry for the buffer model. -/
inductive GeomB where
  | raw (id : ℕ)
  | buffered (g : GeomB) (dist : ℚ) (cap : CapStyle)
deriving DecidableEq, Repr

/-- A record of the merged line layer after the mapping join: mapped class
(none when the `fclass` had no match), `width_t`, geometry. -/
structure LineRec where
  reclass : Option String
  width_t : ℚ
  geom : GeomB
deriving DecidableEq, Repr

/-- Model of `GeoSeries.buffer(dist)` with the given cap style. -/
def bufferOp (g : GeomB) (dist : ℚ) (cap : CapStyle) : GeomB :=
  GeomB.buffered g dist cap

/-- Model of `_linestring_buffer` (lines 212–219): select the rows whose
mapped class equals the target, return the empty (typed) layer if there are
none, else buffer each geometry by `width_t / 2` — the source passes no
`cap_style`, so geopandas buffers with its default round caps — and return
`(reclass, geometry)` records tagged with the target class. -/
def linestringBuffer (input : List LineRec) (reclass : String) :
    List (String × GeomB) :=
  let sel := input.filter (fun r => r.reclass == some reclass)
  if sel.isEmpty then []
  else sel.map (fun r => (reclass, bufferOp r.geom (r.width_t / 2) CapStyle.round))

/-- Modelled from the spec: §4.2 requires the Line-to-Area Buffer to use
"flat/square end caps for deterministic area, not rounded caps".  Same
selection and tagging as the source, but buffering with flat caps.  Used
only to compare against `linestringBuffer`, which uses the geopandas
default round caps. -/
def linestringBufferSpecCaps (input : List LineRec) (reclass : String) :
    List (String × GeomB) :=
  let sel := input.filter (fun r => r.reclass == some reclass)
  if sel.isEmpty then []
  else sel.map (fun r => (reclass, bufferOp r.geom (r.width_t / 2) CapStyle.flat))

/-!
Mapping-table validation (`UWBM.setup_landuse`, uwbm.py lines 332–348).

The mapping table is observed through its column names, the values of its
`reclass` column, and the pandas dtype of its `width_t` column.
-/

/-- The required mapping-table columns (uwbm.py line 333). -/
def requiredColumns : List String := ["fclass", "width_t", "reclass"]

/-- The five recognized land-use classes (uwbm.py line 340). -/
def validClasses : List String :=
  ["paved_roof", "closed_paved", "open_paved", "unpaved", "water"]

/-- The accepted pandas dtypes for `width_t` (uwbm.py line 347). -/
def validWidthDtypes : List String := ["float64", "int", "int64"]

/-- The mapping table as observed by the validation code. -/
structure MappingTable where
  columns : List String
  reclassValues : List String
  widthDtype : String
deriving DecidableEq, Repr

/-- Model of the three validation checks of `setup_landuse`
(uwbm.py lines 332–348), in source order, with the source's error
messages. -/
def validateMapping (t : MappingTable) : Except String Unit :=
  if ¬ (requiredColumns.all (fun c => t.columns.contains c)) then
    Except.error
      "Provide translation table with columns \x27fclass\x27, \x27width_t\x27, \x27reclass\x27"
  else if ¬ (t.reclassValues.all (fun v => validClasses.contains v)) then
    Except.error
      "Valid translation classes are \x27paved_roof\x27, \x27closed_paved\x27, \x27open_paved\x27, \x27unpaved\x27, \x27water\x27"
  else if ¬ (validWidthDtypes.contains t.widthDtype) then
    Except.error "Provide total width (width_t) values as float or int\x27"
  else Except.ok ()

/-- The error message of a validation outcome, if any. -/
def errMsgOf (e : Except String Unit) : Option String :=
  match e with
  | Except.error m => some m
  | Except.ok _ => none

/-- Tests whether `pat` is a leading segment of the second character
list. -/
def startsWithChars : List Char → List Char → Bool
  | [], _ => true
  | _ :: _, [] => false
  | c :: cs, d :: ds => c == d && startsWithChars cs ds

/-- Tests whether `pat` occurs as a contiguous substring of the character
list. -/
def occursInAux (pat : List Char) : List Char → Bool
  | [] => startsWithChars pat []
  | c :: t => startsWithChars pat (c :: t) || occursInAux pat t

/-- The string `s` mentions `pat` (contains it as a substring).  Used to
state whether an error message names the offending value. -/
def mentions (s pat : String) : Bool := occursInAux pat.data s.data

/-- Model of `setup_landuse` after the mapping table is fetched: the
validation runs
first and raises (short-circuits) before the geometry work; on success the
geometry pipeline produces the result.  The geometry work itself is
abstracted as a value `geomResult` computed only in the success branch, so
an error carries no partial result. -/
def setupLanduseModel {α : Type} (t : MappingTable) (geomResult : α) :
    Except String α :=
  match validateMapping t with
  | Except.error m => Except.error m
  | Except.ok _ => Except.ok geomResult

set_option maxRecDepth 40000

/-! Helper lemmas on the rounding model. -/

theorem ratFloor_eq_intFloor (q : ℚ) : (Rat.floor q : ℤ) = ⌊q⌋ := by
  rw [Rat.floor_def]
  unfold Rat.floor
  split
  · rename_i h
    rw [h]
    simp
  · rfl

theorem abs_roundHalfEven_sub (q : ℚ) : |(roundHalfEven q : ℚ) - q| ≤ 1/2 := by
  have hfl : ((⌊q⌋ : ℤ) : ℚ) ≤ q := Int.floor_le q
  have hfu : q < (⌊q⌋ : ℚ) + 1 := Int.lt_floor_add_one q
  simp only [roundHalfEven, ratFloor_eq_intFloor]
  split_ifs with h1 h2 h3 <;>
    rw [abs_le] <;> constructor <;> push_cast <;> linarith

theorem abs_round3_sub (q : ℚ) : |round3 q - q| ≤ 1/2000 := by
  have h := abs_roundHalfEven_sub (1000 * q)
  unfold round3
  have e : (roundHalfEven (1000 * q) : ℚ) / 1000 - q =
      ((roundHalfEven (1000 * q) : ℚ) - 1000 * q) / 1000 := by ring
  rw [e, abs_div]
  have h1000 : |(1000 : ℚ)| = 1000 := by norm_num
  rw [h1000]
  calc |(roundHalfEven (1000 * q) : ℚ) - 1000 * q| / 1000
      ≤ (1/2) / 1000 := by
        apply div_le_div_of_nonneg_right h ?_ |>.trans_eq ?_ <;> norm_num
    _ = 1/2000 := by norm_num

theorem sum_map_round3_err (l : List ℚ) :
    |(l.map round3).sum - l.sum| ≤ l.length / 2000 := by
  induction l with
  | nil => simp
  | cons x t ih =>
    simp only [List.map_cons, List.sum_cons, List.length_cons]
    have h1 := abs_round3_sub x
    calc |round3 x + (t.map round3).sum - (x + t.sum)|
        = |(round3 x - x) + ((t.map round3).sum - t.sum)| := by ring_nf
      _ ≤ |round3 x - x| + |(t.map round3).sum - t.sum| := abs_add _ _
      _ ≤ 1/2000 + t.length / 2000 := add_le_add h1 ih
      _ = (t.length + 1) / 2000 := by ring
      _ = ((t.length + 1 : ℕ) : ℚ) / 2000 := by push_cast; ring

/-- Claim C8: composing any composite layer with an empty new layer returns
the composite unchanged (`_combine_layers` line 225–226 returns `ds_base`
when `ds_add.empty`); in particular it never raises. -/
theorem c8_empty_add_identity {α : Type} [DecidableEq α] (ds_base : Layer α) :
    combineLayers ds_base ([] : Layer α) = ds_base := rfl

theorem c8_empty_add_identity_witness :
    combineLayers [(("unpaved" : String), ({0, 1} : Finset ℕ))] [] =
      [("unpaved", {0, 1})] :=
  c8_empty_add_identity _

/-- Claim C3 (counterexample): on an empty land-use map `landuse_table` does
not return a table containing only the `tot_area` row — the water-floor
branch fires and inserts a water row, so the output also has an `ow` row. -/
theorem c3_counterexample :
    landuse_tableModel [] ≠ [("tot_area", 0, 1)] := by
  with_unfolding_all decide

/-- Claim C3 (amended): on an empty land-use map `landuse_table` does not
raise and returns a two-row table: an `ow` row with area 0 and fraction 0
(the inserted water row; its `0/0` fraction is NaN, which the final group
sum turns into 0) and the `tot_area` row with area 0 and fraction 1. -/
theorem c3_amended :
    landuse_tableModel [] = [("ow", 0, 0), ("tot_area", 0, 1)] := by
  with_unfolding_all decide

/-- Claim C5 (counterexample): the total area is rounded to 0 decimals
(line 155) before the water-floor adjustment and the fraction computation,
so the code's output differs from the round-only-at-output variant the
claim describes: with one unpaved record of area 200.6, the code's
`tot_area` row carries 201 and the spec variant 200.6. -/
theorem c5_counterexample :
    landuse_tableModel [⟨"unpaved", true, 2006/10⟩] ≠
      landuse_tableNoPreround [⟨"unpaved", true, 2006/10⟩] := by
  with_unfolding_all decide

/-- Claim C5 (amended): areas and fractions are rounded to 3 decimals at
the point of output, but the area total is additionally rounded to 0
decimals (nearest integer, line 155) before the water-floor adjustment and
the fraction computation; the code agrees with the no-pre-rounding variant
exactly when the exact total equals its rounded value. -/
theorem c5_amended (m : List LuRec)
    (h : ((tableRows m).map (fun r => r.2)).sum = totRound m) :
    landuse_tableModel m = landuse_tableNoPreround m := by
  unfold landuse_tableModel landuse_tableNoPreround
  rw [h]

theorem c5_amended_witness :
    ((tableRows [⟨"unpaved", true, (100 : ℚ)⟩]).map (fun r => r.2)).sum =
        totRound [⟨"unpaved", true, (100 : ℚ)⟩] ∧
    landuse_tableModel [⟨"unpaved", true, (100 : ℚ)⟩] =
      landuse_tableNoPreround [⟨"unpaved", true, (100 : ℚ)⟩] :=
  ⟨by with_unfolding_all decide, c5_amended _ (by with_unfolding_all decide)⟩

/-- Claim C4 (counterexample): `_linestring_buffer` calls
`sel.geometry.buffer(sel["width_t"] / 2)` with no `cap_style` argument
(line 216), so geopandas buffers with its default round end caps, not the
flat/square caps the claim states: on a single closed_paved line of width
10 the code's output differs from the flat-caps variant. -/
theorem c4_counterexample :
    linestringBuffer [⟨some "closed_paved", 10, GeomB.raw 0⟩] "closed_paved" ≠
      linestringBufferSpecCaps [⟨some "closed_paved", 10, GeomB.raw 0⟩]
        "closed_paved" := by
  with_unfolding_all decide

/-- Claim C7 (counterexample): a dissolved four-class map with areas
300.51/300.51/300.51 (unpaved, closed_paved, open_paved) and 98.51 (water)
has every per-class fraction rounded up, so the non-total fractions sum to
1.002, outside the claimed 1.000 ± 0.001. -/
theorem c7_counterexample :
    ¬ (|sumNonTot (landuse_tableModel
          [⟨"unpaved", true, 30051/100⟩, ⟨"closed_paved", true, 30051/100⟩,
           ⟨"open_paved", true, 30051/100⟩, ⟨"water", true, 9851/100⟩]) - 1| ≤
        1/1000) := by
  with_unfolding_all decide

/-- Claim C6 (counterexample): with a mapping table carrying
`reclass="invalid_class"`, the validation raises — but the error message it
issues lists the valid classes and does not name the offending value
`invalid_class`, contrary to the claim. -/
theorem c6_counterexample :
    errMsgOf (validateMapping
        ⟨["fclass", "width_t", "reclass"], ["invalid_class"], "float64"⟩) =
      some
        "Valid translation classes are \x27paved_roof\x27, \x27closed_paved\x27, \x27open_paved\x27, \x27unpaved\x27, \x27water\x27" ∧
    mentions
      "Valid translation classes are \x27paved_roof\x27, \x27closed_paved\x27, \x27open_paved\x27, \x27unpaved\x27, \x27water\x27"
      "invalid_class" = false := by
  constructor
  · decide
  · decide

/-- Claim C6 (amended): `setup_landuse` raises a fatal validation error if
and only if the mapping table misses one of the columns
fclass/width_t/reclass, contains a reclass value outside the five
recognized classes, or has a `width_t` dtype outside float64/int/int64;
the error message states the violated requirement (required columns, valid
classes, accepted types) rather than naming the offending value, and on
such an error no (partial) result is produced — the geometry pipeline is
never reached. -/
theorem c6_amended (t : MappingTable) :
    ((∃ m, errMsgOf (validateMapping t) = some m) ↔
      ((∃ c ∈ requiredColumns, c ∉ t.columns) ∨
        (∃ v ∈ t.reclassValues, v ∉ validClasses) ∨
        t.widthDtype ∉ validWidthDtypes)) ∧
    (∀ (m : String), errMsgOf (validateMapping t) = some m →
      ∀ (β : Type) (g : β), setupLanduseModel t g = Except.error m) := by
  unfold errMsgOf setupLanduseModel validateMapping
  split_ifs with h1 h2 h3 <;>
    refine ⟨?_, ?_⟩ <;>
    simp_all

theorem c6_amended_witness :
    setupLanduseModel
        ⟨["fclass", "width_t", "reclass"], ["invalid_class"], "float64"⟩
        (0 : ℕ) =
      Except.error
        "Valid translation classes are \x27paved_roof\x27, \x27closed_paved\x27, \x27open_paved\x27, \x27unpaved\x27, \x27water\x27" :=
  (c6_amended
      ⟨["fclass", "width_t", "reclass"], ["invalid_class"], "float64"⟩).2
    _ (by decide) ℕ 0

/-! Helper lemmas on the group-by model. -/

theorem insStr_perm (a : String) (l : List String) :
    List.Perm (insStr a l) (a :: l) := by
  induction l with
  | nil => exact List.Perm.refl _
  | cons b t ih =>
    simp only [insStr]
    split
    · exact List.Perm.refl _
    · exact (List.Perm.cons b ih).trans (List.Perm.swap a b t)

theorem sortStr_perm (l : List String) : List.Perm (sortStr l) l := by
  induction l with
  | nil => exact List.Perm.refl _
  | cons a t ih =>
    exact (insStr_perm a (sortStr t)).trans (List.Perm.cons a ih)

theorem groupTable_keys (rows : List (String × ℚ × ℚ)) :
    (groupTable rows).map (fun r => r.1) =
      sortStr ((rows.map (fun r => r.1)).dedup) := by
  unfold groupTable
  rw [List.map_map]
  simp [Function.comp_def]

theorem nodup_groupTable_keys (rows : List (String × ℚ × ℚ)) :
    ((groupTable rows).map (fun r => r.1)).Nodup := by
  rw [groupTable_keys]
  exact ((sortStr_perm _).nodup_iff).mpr (List.nodup_dedup _)

theorem exists_groupTable_key (rows : List (String × ℚ × ℚ)) (k : String) :
    (∃ r ∈ groupTable rows, r.1 = k) ↔ k ∈ rows.map (fun r => r.1) := by
  unfold groupTable
  constructor
  · rintro ⟨r, hr, hk⟩
    rw [List.mem_map] at hr
    obtain ⟨k', hk', he⟩ := hr
    have hkk : k' = k := by rw [← hk, ← he]
    rw [hkk] at hk'
    rw [(sortStr_perm _).mem_iff, List.mem_dedup] at hk'
    exact hk'
  · intro hk
    refine ⟨_, List.mem_map.mpr ⟨k, ?_, rfl⟩, rfl⟩
    rw [(sortStr_perm _).mem_iff, List.mem_dedup]
    exact hk

theorem bumpWater_fst (tot : ℚ) (r : String × ℚ) :
    (bumpWater tot r).1 = r.1 := by
  unfold bumpWater
  split <;> rfl

theorem exists_water_adjustedRows (lu : List (String × ℚ)) (tot : ℚ) :
    ∃ r ∈ adjustedRows lu tot, r.1 = "water" := by
  unfold adjustedRows
  split_ifs with h1 h2
  · refine ⟨bumpWater tot ("water", 0), List.mem_map.mpr ⟨("water", 0), ?_, rfl⟩,
      by rw [bumpWater_fst]⟩
    simp
  · obtain ⟨r, hr⟩ :=
      List.exists_mem_of_ne_nil _ (by simpa [List.isEmpty_iff] using h2)
    have hr2 := List.mem_filter.mp hr
    refine ⟨bumpWater tot r, List.mem_map.mpr ⟨r, hr2.1, rfl⟩, ?_⟩
    rw [bumpWater_fst]
    exact beq_iff_eq.mp hr2.2
  · have h2 : ¬ (waterRowsOf lu).isEmpty = true := by
      intro he
      exact h1 (by simp [floorCond, he])
    obtain ⟨r, hr⟩ :=
      List.exists_mem_of_ne_nil _ (by simpa [List.isEmpty_iff] using h2)
    have hr2 := List.mem_filter.mp hr
    exact ⟨r, hr2.1, beq_iff_eq.mp hr2.2⟩

/-- Claim C10: for every input land-use map the produced table has pairwise
distinct reclass codes (exactly one row per code), and it always contains an
`ow` row and a `tot_area` row, even when the input has no water class (the
water-floor branch inserts one). -/
theorem c10_row_uniqueness (m : List LuRec) :
    ((landuse_tableModel m).map (fun r => r.1)).Nodup ∧
    (∃ r ∈ landuse_tableModel m, r.1 = "ow") ∧
    (∃ r ∈ landuse_tableModel m, r.1 = "tot_area") := by
  unfold landuse_tableModel landuse_tableAux
  refine ⟨nodup_groupTable_keys _, ?_, ?_⟩
  · rw [exists_groupTable_key]
    obtain ⟨r, hr, hw⟩ := exists_water_adjustedRows (tableRows m) (totRound m)
    rw [List.map_map, List.mem_map]
    refine ⟨(r.1, r.2, round3 (r.2 / effDenom (tableRows m) (totRound m))),
      List.mem_append_left _ (List.mem_map.mpr ⟨r, hr, rfl⟩), ?_⟩
    simp only [Function.comp]
    rw [hw]
    decide
  · rw [exists_groupTable_key]
    rw [List.map_map, List.mem_map]
    refine ⟨("tot_area", totRound m, 1), List.mem_append_right _ (by simp), ?_⟩
    simp only [Function.comp]
    decide

/-- Claim C4 (amended): `_linestring_buffer` selects exactly the records
whose mapped class equals the target; it buffers each selected geometry by
half its total width with the geopandas default round end caps (not
flat/square — the source passes no `cap_style`); every output record is
tagged with the target class; and an empty selection yields the empty
(typed) layer rather than failing. -/
theorem c4_amended (input : List LineRec) (c : String) :
    (linestringBuffer input c = [] ↔ ∀ r ∈ input, r.reclass ≠ some c) ∧
    (∀ q ∈ linestringBuffer input c,
        q.1 = c ∧ ∃ r ∈ input, r.reclass = some c ∧
          q.2 = bufferOp r.geom (r.width_t / 2) CapStyle.round) ∧
    (∀ r ∈ input, r.reclass = some c →
        (c, bufferOp r.geom (r.width_t / 2) CapStyle.round) ∈
          linestringBuffer input c) := by
  simp only [linestringBuffer]
  split_ifs with h
  · rw [List.isEmpty_iff, List.filter_eq_nil_iff] at h
    refine ⟨⟨fun _ r hr hc => h r hr (by simp [hc]), fun _ => rfl⟩, by simp, ?_⟩
    intro r hr hc
    exact absurd (by simp [hc]) (h r hr)
  · rw [List.isEmpty_iff] at h
    refine ⟨⟨?_, ?_⟩, ?_, ?_⟩
    · intro he
      exact absurd (List.map_eq_nil_iff.mp he) h
    · intro hall
      exact absurd (List.filter_eq_nil_iff.mpr (fun r hr => by simp [hall r hr])) h
    · intro q hq
      rw [List.mem_map] at hq
      obtain ⟨r, hrsel, rfl⟩ := hq
      have hrf := List.mem_filter.mp hrsel
      exact ⟨rfl, r, hrf.1, by simpa using hrf.2, rfl⟩
    · intro r hr hc
      exact List.mem_map.mpr ⟨r, List.mem_filter.mpr ⟨hr, by simp [hc]⟩, rfl⟩

theorem c4_amended_witness :
    ("closed_paved",
        bufferOp (GeomB.raw 0) ((10 : ℚ) / 2) CapStyle.round) ∈
      linestringBuffer [⟨some "closed_paved", 10, GeomB.raw 0⟩]
        "closed_paved" :=
  (c4_amended [⟨some "closed_paved", 10, GeomB.raw 0⟩] "closed_paved").2.2
    ⟨some "closed_paved", 10, GeomB.raw 0⟩ (by simp) rfl

theorem find?_map_key {β : Type} (g : String → β) (K : List String) (k : String)
    (hk : k ∈ K) :
    (K.map (fun x => (x, g x))).find? (fun r => r.1 == k) = some (k, g k) := by
  induction K with
  | nil => cases hk
  | cons a t ih =>
    rcases List.mem_cons.mp hk with h | h
    · subst h
      rw [List.map_cons, List.find?_cons_of_pos _ (by simp)]
    · by_cases ha : a = k
      · subst ha
        rw [List.map_cons, List.find?_cons_of_pos _ (by simp)]
      · rw [List.map_cons, List.find?_cons_of_neg _ (by simp [ha])]
        exact ih h

theorem lookupFrac_groupTable (rows : List (String × ℚ × ℚ)) (k : String)
    (hk : k ∈ rows.map (fun r => r.1)) :
    lookupFrac (groupTable rows) k =
      some (round3 (((rows.filter (fun r => r.1 == k)).map
        (fun r => r.2.2)).sum)) := by
  unfold lookupFrac groupTable
  rw [find?_map_key
      (fun k => (round3 (((rows.filter (fun r => r.1 == k)).map
          (fun r => r.2.1)).sum),
        round3 (((rows.filter (fun r => r.1 == k)).map (fun r => r.2.2)).sum)))
      _ k (by rw [(sortStr_perm _).mem_iff, List.mem_dedup]; exact hk)]
  rfl

theorem renameClass_eq_ow {c : String} :
    renameClass c = "ow" ↔ c = "water" ∨ c = "ow" := by
  unfold renameClass
  split_ifs with h1 h2 h3 h4 h5 <;> simp_all


theorem round3_centi : round3 (1/100) = 1/100 := by with_unfolding_all decide

/-- Claim C2: for a land-use map with no water record (computed water area
0) and positive (rounded) total area, `landuse_table` takes the water-floor
branch: it inserts a zero-area water row, rescales the total to
`total/0.99`, adds 1% of the rescaled total to the water area, and divides
by the rescaled total, so the output `ow` fraction is exactly 0.01.  The
hypotheses exclude rows named `water`/`ow` (the dissolved Land-Use Map has
at most one record per class and `ow` is not a source class name). -/
theorem c2_water_floor (m : List LuRec)
    (hR : 0 < totRound m)
    (hw : ∀ r ∈ tableRows m, r.1 ≠ "water")
    (how : ∀ r ∈ tableRows m, r.1 ≠ "ow") :
    lookupFrac (landuse_tableModel m) "ow" = some (1/100) := by
  have hwr : waterRowsOf (tableRows m) = [] :=
    List.filter_eq_nil_iff.mpr (fun r hr => by simp [hw r hr])
  have hfc : floorCond (tableRows m) (totRound m) = true := by
    simp [floorCond, hwr]
  have hDpos : (0 : ℚ) < totRound m / (99/100) := div_pos hR (by norm_num)
  have hden : effDenom (tableRows m) (totRound m) = totRound m / (99/100) := by
    simp [effDenom, hfc]
  have hlu_bump : (tableRows m).map (bumpWater (totRound m)) = tableRows m := by
    conv_rhs => rw [← List.map_id (tableRows m)]
    apply List.map_congr_left
    intro r hr
    simp [bumpWater, hw r hr]
  have hadj : adjustedRows (tableRows m) (totRound m) =
      tableRows m ++ [("water", 0 + totRound m / (99/100) * (1/100))] := by
    simp only [adjustedRows, hfc, hwr, List.isEmpty_nil, if_true]
    rw [List.map_append, hlu_bump]
    simp [bumpWater]
  unfold landuse_tableModel landuse_tableAux
  rw [hden, hadj]
  have e1 : renameClass "water" = "ow" := by decide
  have e2 : renameClass "tot_area" = "tot_area" := by decide
  have hx : (0 + totRound m / (99/100) * (1/100)) / (totRound m / (99/100)) =
      1/100 := by
    rw [zero_add, mul_div_cancel_left₀ _ hDpos.ne']
  rw [lookupFrac_groupTable]
  · simp only [List.map_append, List.map_map, List.filter_append,
      List.map_cons, List.map_nil, List.filter_cons, List.filter_nil,
      Function.comp, e1, e2]
    have hnilf : List.filter (fun r => r.1 == "ow")
        (List.map ((fun r => (renameClass r.1, r.2)) ∘
          fun r => (r.1, r.2, round3 (r.2 / (totRound m / (99/100)))))
          (tableRows m)) = [] := by
      rw [List.filter_eq_nil_iff]
      intro a ha
      rw [List.mem_map] at ha
      obtain ⟨r, hr, rfl⟩ := ha
      simp only [Function.comp, beq_iff_eq]
      intro hcon
      rcases renameClass_eq_ow.mp hcon with h | h
      · exact hw r hr h
      · exact how r hr h
    rw [hnilf]
    simp only [List.map_nil, List.nil_append, beq_self_eq_true, if_true]
    rw [hx, round3_centi]
    simp only [if_neg (by decide : ¬ (("tot_area" == "ow") = true))]
    simp only [List.map_nil, List.map_cons, List.sum_cons, List.sum_nil,
      List.append_nil, add_zero, Option.some.injEq]
    exact round3_centi
  · simp [List.mem_append]
    exact Or.inr (Or.inl e1.symm)


theorem c2_water_floor_witness :
    0 < totRound [⟨"unpaved", true, (100 : ℚ)⟩] ∧
    lookupFrac (landuse_tableModel [⟨"unpaved", true, (100 : ℚ)⟩]) "ow" =
      some (1/100) :=
  ⟨by with_unfolding_all decide,
    c2_water_floor _ (by with_unfolding_all decide)
      (by with_unfolding_all decide) (by with_unfolding_all decide)⟩

theorem mem_covU {α : Type} [DecidableEq α] {l : Layer α} {p : α} :
    p ∈ covU l ↔ ∃ r ∈ l, p ∈ r.2 := by
  induction l with
  | nil => simp [covU]
  | cons r t ih =>
    rw [show covU (r :: t) = r.2 ∪ covU t from rfl, Finset.mem_union, ih]
    simp only [List.mem_cons]
    constructor
    · rintro (h | ⟨x, hx, hpx⟩)
      · exact ⟨r, Or.inl rfl, h⟩
      · exact ⟨x, Or.inr hx, hpx⟩
    · rintro ⟨x, h | hx, hpx⟩
      · subst h; exact Or.inl hpx
      · exact Or.inr ⟨x, hx, hpx⟩

theorem classifiedAs_combine_right {α : Type} [DecidableEq α]
    {base add : Layer α} {p : α} {c : String}
    (hmem : p ∈ covU add) (htag : ∀ r ∈ add, r.1 = c) :
    classifiedAs (combineLayers base add) p c := by
  have hne : add ≠ [] := by
    rintro rfl
    simp [covU] at hmem
  unfold combineLayers
  rw [if_neg (by simp [List.isEmpty_iff, hne])]
  constructor
  · obtain ⟨r, hr, hpr⟩ := mem_covU.mp hmem
    exact ⟨r, List.mem_append_right _ hr, hpr⟩
  · intro r hr hpr
    rcases List.mem_append.mp hr with h | h
    · obtain ⟨hmemf, _⟩ := List.mem_filter.mp h
      obtain ⟨r0, hr0, rfl⟩ := List.mem_map.mp hmemf
      rw [show ((r0.1, r0.2 \ covU add) : String × Finset α).2 =
        r0.2 \ covU add from rfl, Finset.mem_sdiff] at hpr
      exact absurd hmem hpr.2
    · exact htag r h

theorem classifiedAs_combine_left {α : Type} [DecidableEq α]
    {base add : Layer α} {p : α} {c : String}
    (hnot : p ∉ covU add) (hbase : classifiedAs base p c) :
    classifiedAs (combineLayers base add) p c := by
  unfold combineLayers
  split_ifs with he
  · exact hbase
  · obtain ⟨⟨r, hr, hpr⟩, hall⟩ := hbase
    constructor
    · refine ⟨(r.1, r.2 \ covU add), List.mem_append_left _ ?_, ?_⟩
      · apply List.mem_filter.mpr
        refine ⟨List.mem_map.mpr ⟨r, hr, rfl⟩, ?_⟩
        simp only [decide_eq_true_eq]
        exact Finset.ne_empty_of_mem (Finset.mem_sdiff.mpr ⟨hpr, hnot⟩)
      · exact Finset.mem_sdiff.mpr ⟨hpr, hnot⟩
    · intro r' hr' hpr'
      rcases List.mem_append.mp hr' with h | h
      · obtain ⟨hmemf, _⟩ := List.mem_filter.mp h
        obtain ⟨r0, hr0, rfl⟩ := List.mem_map.mp hmemf
        exact hall r0 hr0 (Finset.mem_sdiff.mp hpr').1
      · exact absurd (mem_covU.mpr ⟨r', h, hpr'⟩) hnot

/-- Claim C1: the compositor starts from the unpaved base layer and folds
`_combine_layers` over water, open_paved, closed_paved, paved_roof in that
fixed order, each step replacing the composite by
(composite minus new layer) followed by the new layer; consequently, when a
point is covered by layer `j` of the priority stack and by no later layer,
every record of the composite containing that point carries layer `j`'s
class — the later-priority class always wins on overlaps. -/
theorem c1_priority_overlay {α : Type} [DecidableEq α]
    (lu wa opv cpv prv : Layer α) (p : α) (j : ℕ) (hj : j < 5)
    (htags : ∀ s ∈ layerStack lu wa opv cpv prv, ∀ r ∈ s.2, r.1 = s.1)
    (hcov : p ∈ covU ((layerStack lu wa opv cpv prv).get ⟨j, hj⟩).2)
    (hlater : ∀ (k : ℕ) (hk : k < 5), j < k →
      p ∉ covU ((layerStack lu wa opv cpv prv).get ⟨k, hk⟩).2) :
    classifiedAs (luMapComposite lu wa opv cpv prv) p
      ((layerStack lu wa opv cpv prv).get ⟨j, hj⟩).1 := by
  have t0 : ∀ r ∈ lu, r.1 = "unpaved" :=
    htags ("unpaved", lu) (by simp [layerStack])
  have t1 : ∀ r ∈ wa, r.1 = "water" :=
    htags ("water", wa) (by simp [layerStack])
  have t2 : ∀ r ∈ opv, r.1 = "open_paved" :=
    htags ("open_paved", opv) (by simp [layerStack])
  have t3 : ∀ r ∈ cpv, r.1 = "closed_paved" :=
    htags ("closed_paved", cpv) (by simp [layerStack])
  have t4 : ∀ r ∈ prv, r.1 = "paved_roof" :=
    htags ("paved_roof", prv) (by simp [layerStack])
  have hcomp : luMapComposite lu wa opv cpv prv =
      combineLayers (combineLayers (combineLayers (combineLayers lu wa) opv)
        cpv) prv := rfl
  rw [hcomp]
  interval_cases j
  · simp only [layerStack, List.get] at hcov ⊢
    have h1 := hlater 1 (by omega) (by omega)
    have h2 := hlater 2 (by omega) (by omega)
    have h3 := hlater 3 (by omega) (by omega)
    have h4 := hlater 4 (by omega) (by omega)
    simp only [layerStack, List.get] at h1 h2 h3 h4
    exact classifiedAs_combine_left h4 (classifiedAs_combine_left h3
      (classifiedAs_combine_left h2 (classifiedAs_combine_left h1
        ⟨mem_covU.mp hcov, fun r hr _ => t0 r hr⟩)))
  · simp only [layerStack, List.get] at hcov ⊢
    have h2 := hlater 2 (by omega) (by omega)
    have h3 := hlater 3 (by omega) (by omega)
    have h4 := hlater 4 (by omega) (by omega)
    simp only [layerStack, List.get] at h2 h3 h4
    exact classifiedAs_combine_left h4 (classifiedAs_combine_left h3
      (classifiedAs_combine_left h2 (classifiedAs_combine_right hcov t1)))
  · simp only [layerStack, List.get] at hcov ⊢
    have h3 := hlater 3 (by omega) (by omega)
    have h4 := hlater 4 (by omega) (by omega)
    simp only [layerStack, List.get] at h3 h4
    exact classifiedAs_combine_left h4 (classifiedAs_combine_left h3
      (classifiedAs_combine_right hcov t2))
  · simp only [layerStack, List.get] at hcov ⊢
    have h4 := hlater 4 (by omega) (by omega)
    simp only [layerStack, List.get] at h4
    exact classifiedAs_combine_left h4 (classifiedAs_combine_right hcov t3)
  · simp only [layerStack, List.get] at hcov ⊢
    exact classifiedAs_combine_right hcov t4

theorem c1_priority_overlay_witness :
    classifiedAs
      (luMapComposite [(("unpaved" : String), ({0, 1, 2} : Finset ℕ))]
        [("water", {1, 2})] [("open_paved", {2})] [] [])
      2 "open_paved" :=
  c1_priority_overlay [("unpaved", {0, 1, 2})] [("water", {1, 2})]
    [("open_paved", {2})] [] [] 2 2 (by omega)
    (by with_unfolding_all decide)
    (by with_unfolding_all decide)
    (by
      intro k hk hjk
      interval_cases k <;>
        first
          | omega
          | (simp only [layerStack, List.get]; with_unfolding_all decide))

theorem sum_filter_split {γ : Type} (val : γ → ℚ) (p : γ → Bool) (l : List γ) :
    ((l.filter p).map val).sum + ((l.filter (fun a => !(p a))).map val).sum =
      (l.map val).sum := by
  induction l with
  | nil => simp
  | cons a t ih =>
    by_cases h : p a <;> simp [List.filter_cons, h] <;> linarith [ih]

theorem sum_fibers {γ : Type} (val : γ → ℚ) (key : γ → String) :
    ∀ (K : List String) (rows : List γ), K.Nodup →
      (∀ r ∈ rows, key r ∈ K) →
      ((K.map (fun k =>
          ((rows.filter (fun r => key r == k)).map val).sum)).sum) =
        (rows.map val).sum := by
  intro K
  induction K with
  | nil =>
    intro rows _ hall
    have : rows = [] :=
      List.eq_nil_iff_forall_not_mem.mpr
        (fun r hr => absurd (hall r hr) (List.not_mem_nil _))
    subst this
    simp
  | cons k K' ih =>
    intro rows hnd hall
    have hnd' : K'.Nodup := (List.nodup_cons.mp hnd).2
    have hknotin : k ∉ K' := (List.nodup_cons.mp hnd).1
    have hcongr : K'.map (fun k' =>
          ((rows.filter (fun r => key r == k')).map val).sum) =
        K'.map (fun k' =>
          (((rows.filter (fun r => !(key r == k))).filter
            (fun r => key r == k')).map val).sum) := by
      apply List.map_congr_left
      intro k' hk'
      have hne : k' ≠ k := fun he => hknotin (he ▸ hk')
      congr 1
      rw [List.filter_filter]
      congr 1
      apply List.filter_congr
      intro r _
      by_cases h : key r == k'
      · have : ¬ (key r == k) = true := by
          simp only [beq_iff_eq] at h ⊢
          rw [h]
          exact hne
        simp [h, this]
      · simp [h]
    have hall' : ∀ r ∈ rows.filter (fun r => !(key r == k)), key r ∈ K' := by
      intro r hr
      obtain ⟨hrm, hf⟩ := List.mem_filter.mp hr
      rcases List.mem_cons.mp (hall r hrm) with h | h
      · rw [h] at hf
        simp at hf
      · exact h
    calc ((k :: K').map (fun k' =>
            ((rows.filter (fun r => key r == k')).map val).sum)).sum
        = ((rows.filter (fun r => key r == k)).map val).sum +
          (K'.map (fun k' =>
            ((rows.filter (fun r => key r == k')).map val).sum)).sum := by
          simp
      _ = ((rows.filter (fun r => key r == k)).map val).sum +
          ((rows.filter (fun r => !(key r == k))).map val).sum := by
          rw [hcongr, ih _ hnd' hall']
      _ = (rows.map val).sum := sum_filter_split val _ rows

theorem renameClass_eq_tot {c : String} :
    renameClass c = "tot_area" ↔ c = "tot_area" := by
  unfold renameClass
  split_ifs with h1 h2 h3 h4 h5 <;> simp_all

theorem adjustedRows_fst_mem (lu : List (String × ℚ)) (tot : ℚ) :
    ∀ r ∈ adjustedRows lu tot,
      r.1 ∈ lu.map (fun x => x.1) ∨ r.1 = "water" := by
  unfold adjustedRows
  split_ifs with h1 h2
  · intro r hr
    obtain ⟨r0, hr0, rfl⟩ := List.mem_map.mp hr
    rw [bumpWater_fst]
    rcases List.mem_append.mp hr0 with h | h
    · exact Or.inl (List.mem_map.mpr ⟨r0, h, rfl⟩)
    · simp only [List.mem_singleton] at h
      rw [h]
      exact Or.inr rfl
  · intro r hr
    obtain ⟨r0, hr0, rfl⟩ := List.mem_map.mp hr
    rw [bumpWater_fst]
    exact Or.inl (List.mem_map.mpr ⟨r0, hr0, rfl⟩)
  · intro r hr
    exact Or.inl (List.mem_map.mpr ⟨r, hr, rfl⟩)

theorem sum_map_div {γ : Type} (val : γ → ℚ) (d : ℚ) (l : List γ) :
    (l.map (fun r => val r / d)).sum = (l.map val).sum / d := by
  induction l with
  | nil => simp
  | cons a t ih => simp [ih, add_div]

theorem sumNonTot_group_bound (A : List (String × ℚ)) (D T : ℚ)
    (hkeys : ∀ r ∈ A, r.1 ≠ "tot_area") :
    |sumNonTot (groupTable
        (((A.map (fun r => (r.1, r.2, round3 (r.2 / D)))) ++
            [("tot_area", T, (1 : ℚ))]).map
          (fun r => (renameClass r.1, r.2)))) -
        ((A.map (fun r => r.2)).sum) / D| ≤
      (A.length : ℚ) / 1000 := by
  have e2 : renameClass "tot_area" = "tot_area" := by decide
  unfold sumNonTot groupTable
  rw [List.map_append, List.filter_map, List.map_map]
  simp only [Function.comp_def, e2, List.map_cons, List.map_nil]
  set crows := List.map (fun r => (renameClass r.1, r.2))
      (List.map (fun r => (r.1, r.2, round3 (r.2 / D))) A) with hcrows
  set KK := sortStr
      ((List.map (fun r => r.1) (crows ++ [("tot_area", T, (1 : ℚ))])).dedup)
    with hKK
  set K' := List.filter (fun x => !x == "tot_area") KK with hK2
  have hc1 : ∀ r ∈ crows, r.1 ≠ "tot_area" := by
    intro r hr
    rw [hcrows, List.map_map] at hr
    obtain ⟨r0, hr0, rfl⟩ := List.mem_map.mp hr
    intro hcon
    exact hkeys r0 hr0 (renameClass_eq_tot.mp hcon)
  have hσ : List.map (fun x => round3 ((List.map (fun r => r.2.2)
        (List.filter (fun r => r.1 == x)
          (crows ++ [("tot_area", T, (1 : ℚ))]))).sum)) K' =
      List.map (fun x => round3 ((List.map (fun r => r.2.2)
        (List.filter (fun r => r.1 == x) crows)).sum)) K' := by
    apply List.map_congr_left
    intro k hk
    have hkne : k ≠ "tot_area" := by
      have h := (List.mem_filter.mp hk).2
      simpa using h
    rw [List.filter_append]
    simp [List.filter_cons, beq_iff_eq, Ne.symm hkne]
  rw [hσ]
  have hnodK2 : K'.Nodup := by
    rw [hK2]
    exact List.Nodup.filter _
      (((sortStr_perm _).nodup_iff).mpr (List.nodup_dedup _))
  have hsub : ∀ k ∈ K', k ∈ crows.map (fun r => r.1) := by
    intro k hk
    obtain ⟨hkK, hkq⟩ := List.mem_filter.mp hk
    rw [hKK, (sortStr_perm _).mem_iff, List.mem_dedup, List.map_append,
      List.mem_append] at hkK
    rcases hkK with h | h
    · exact h
    · simp only [List.map_cons, List.map_nil, List.mem_singleton] at h
      rw [h] at hkq
      simp at hkq
  have hlenK2 : K'.length ≤ A.length := by
    have h1 := (List.subperm_of_subset hnodK2 hsub).length_le
    simpa [hcrows] using h1
  have hall : ∀ r ∈ crows, r.1 ∈ K' := by
    intro r hr
    apply List.mem_filter.mpr
    refine ⟨?_, by simpa using hc1 r hr⟩
    rw [hKK, (sortStr_perm _).mem_iff, List.mem_dedup]
    exact List.mem_map.mpr ⟨r, List.mem_append_left _ hr, rfl⟩
  have hX : (K'.map (fun k => (List.map (fun r => r.2.2)
        (List.filter (fun r => r.1 == k) crows)).sum)).sum =
      (crows.map (fun r => r.2.2)).sum :=
    sum_fibers (fun r => r.2.2) (fun r => r.1) K' crows hnodK2 hall
  have hSX : |(K'.map (fun k => round3 ((List.map (fun r => r.2.2)
        (List.filter (fun r => r.1 == k) crows)).sum))).sum -
        (K'.map (fun k => (List.map (fun r => r.2.2)
          (List.filter (fun r => r.1 == k) crows)).sum)).sum| ≤
      (K'.length : ℚ) / 2000 := by
    have h1 := sum_map_round3_err (K'.map (fun k => (List.map (fun r => r.2.2)
      (List.filter (fun r => r.1 == k) crows)).sum))
    rw [List.map_map] at h1
    simpa [Function.comp_def, List.length_map] using h1
  have hcr : (crows.map (fun r => r.2.2)).sum =
      ((A.map (fun r => r.2 / D)).map round3).sum := by
    rw [hcrows]
    simp only [List.map_map]
    rfl
  have hXT : |((A.map (fun r => r.2 / D)).map round3).sum -
        (A.map (fun r => r.2)).sum / D| ≤ (A.length : ℚ) / 2000 := by
    have h1 := sum_map_round3_err (A.map (fun r => r.2 / D))
    rw [sum_map_div] at h1
    simpa [List.length_map] using h1
  calc |(K'.map (fun k => round3 ((List.map (fun r => r.2.2)
          (List.filter (fun r => r.1 == k) crows)).sum))).sum -
        (A.map (fun r => r.2)).sum / D|
      ≤ |(K'.map (fun k => round3 ((List.map (fun r => r.2.2)
            (List.filter (fun r => r.1 == k) crows)).sum))).sum -
          (K'.map (fun k => (List.map (fun r => r.2.2)
            (List.filter (fun r => r.1 == k) crows)).sum)).sum| +
        |(K'.map (fun k => (List.map (fun r => r.2.2)
            (List.filter (fun r => r.1 == k) crows)).sum)).sum -
          (A.map (fun r => r.2)).sum / D| := abs_sub_le _ _ _
    _ ≤ (K'.length : ℚ) / 2000 + (A.length : ℚ) / 2000 := by
        refine add_le_add hSX ?_
        rw [hX, hcr]
        exact hXT
    _ ≤ (A.length : ℚ) / 2000 + (A.length : ℚ) / 2000 := by
        have hc : (K'.length : ℚ) ≤ (A.length : ℚ) := Nat.cast_le.mpr hlenK2
        gcongr
    _ = (A.length : ℚ) / 1000 := by ring

/-- Claim C7 (amended): for a map with positive rounded total whose rows do
not use the reserved name `tot_area`, the sum of the non-total `frac`
values equals the adjusted class-area total divided by the effective
denominator (`fracTarget`) to within 0.0005 per class row plus 0.0005 per
distinct class code — bounded here by 0.001 times the number of class
rows.  Because each class fraction is rounded to 3 decimals and the total
is pre-rounded to an integer, the sum can differ from 1.000 by more than
the 0.001 the claim allows (see the counterexample, where it is 1.002). -/
theorem c7_frac_sum_amended (m : List LuRec)
    (_hR : 0 < totRound m)
    (hname : ∀ r ∈ tableRows m, r.1 ≠ "tot_area") :
    |sumNonTot (landuse_tableModel m) - fracTarget m| ≤
      (classRowCount m : ℚ) / 1000 := by
  have hkeys : ∀ r ∈ adjustedRows (tableRows m) (totRound m),
      r.1 ≠ "tot_area" := by
    intro r hr
    rcases adjustedRows_fst_mem _ _ r hr with h | h
    · obtain ⟨x, hx, hxe⟩ := List.mem_map.mp h
      rw [← hxe]
      exact hname x hx
    · rw [h]
      decide
  exact sumNonTot_group_bound _ _ _ hkeys


theorem c7_frac_sum_amended_witness :
    0 < totRound [⟨"unpaved", true, (100 : ℚ)⟩] ∧
    |sumNonTot (landuse_tableModel [⟨"unpaved", true, (100 : ℚ)⟩]) -
        fracTarget [⟨"unpaved", true, (100 : ℚ)⟩]| ≤
      (classRowCount [⟨"unpaved", true, (100 : ℚ)⟩] : ℚ) / 1000 :=
  ⟨by with_unfolding_all decide,
    c7_frac_sum_amended _ (by with_unfolding_all decide)
      (by with_unfolding_all decide)⟩
